import Mathlib

/-!
Verification of the aggregation header `litert/rust/wrapper.h`.

The source file is a C header consisting of an inclusion guard keyed by the
symbol `THIRD_PARTY_ODML_LITERT_LITERT_RUST_WRAPPER_H_` and thirteen
`#include` directives, one per declaration group of the wrapped C API.  We
embed the C-preprocessor resolution of this header as a function on an
explicit compilation-unit state.
-/

namespace LiteRTWrapper

/-- The thirteen declaration groups included by `wrapper.h`, one constructor
per `#include` line of the source file (lines 4-16). -/
inductive DeclGroup where
  | logging
  | common
  | compiledModel
  | environment
  | environmentOptions
  | event
  | metrics
  | model
  | opOptions
  | opaqueOptions
  | options
  | tensorBuffer
  | tensorBufferRequirements
deriving DecidableEq, Repr, Fintype

/-- The include path of each declaration group, transcribed from the
`#include` directives of `wrapper.h`. -/
def includePath : DeclGroup → String
  | .logging => "../c/internal/litert_logging.h"
  | .common => "../c/litert_common.h"
  | .compiledModel => "../c/litert_compiled_model.h"
  | .environment => "../c/litert_environment.h"
  | .environmentOptions => "../c/litert_environment_options.h"
  | .event => "../c/litert_event.h"
  | .metrics => "../c/litert_metrics.h"
  | .model => "../c/litert_model.h"
  | .opOptions => "../c/litert_op_options.h"
  | .opaqueOptions => "../c/litert_opaque_options.h"
  | .options => "../c/litert_options.h"
  | .tensorBuffer => "../c/litert_tensor_buffer.h"
  | .tensorBufferRequirements => "../c/litert_tensor_buffer_requirements.h"

/-- The symbol keying the inclusion guard of `wrapper.h` (lines 1-2 and 18
of the source). -/
def guardSymbol : String := "THIRD_PARTY_ODML_LITERT_LITERT_RUST_WRAPPER_H_"

/-- The thirteen include entries of `wrapper.h`, in the textual order of the
source file (lines 4-16). -/
def includeList : List DeclGroup :=
  [.logging, .common, .compiledModel, .environment, .environmentOptions,
   .event, .metrics, .model, .opOptions, .opaqueOptions, .options,
   .tensorBuffer, .tensorBufferRequirements]

/-- A textual entry of the header: either the inclusion-guard entry (keyed by
its guard symbol) or an `#include` of a declaration group. -/
inductive HeaderEntry where
  | guardEntry : String → HeaderEntry
  | includeEntry : DeclGroup → HeaderEntry
deriving DecidableEq, Repr

/-- The entries of `wrapper.h` in source order: the inclusion guard (lines
1-2/18) followed by the thirteen `#include` directives (lines 4-16). -/
def wrapperEntries : List HeaderEntry :=
  [.guardEntry guardSymbol,
   .includeEntry .logging,
   .includeEntry .common,
   .includeEntry .compiledModel,
   .includeEntry .environment,
   .includeEntry .environmentOptions,
   .includeEntry .event,
   .includeEntry .metrics,
   .includeEntry .model,
   .includeEntry .opOptions,
   .includeEntry .opaqueOptions,
   .includeEntry .options,
   .includeEntry .tensorBuffer,
   .includeEntry .tensorBufferRequirements]

/-- Modelled from the spec: the declaration-group manifest of section 6 of
the specification, in the order of its table (logging, common,
compiled-model, environment, environment options, event, metrics, model, op
options, opaque options, options, tensor buffer, tensor buffer
requirements).  This definition follows the specification's words and is
compared against `includeList`, which is transcribed from the source. -/
def specManifest : List DeclGroup :=
  [.logging, .common, .compiledModel, .environment, .environmentOptions,
   .event, .metrics, .model, .opOptions, .opaqueOptions, .options,
   .tensorBuffer, .tensorBufferRequirements]

/-- The state of one compilation unit, as seen by the preprocessor:
whether the guard symbol of `wrapper.h` is defined, which declaration
groups' own inclusion guards are defined, which declaration groups'
declarations are visible, the trace of group bodies textually processed so
far, and an abstract component `other` standing for every part of the
translation-unit and runtime state that header resolution does not touch
(resources, I/O, executed code). -/
structure CUState (α : Type) where
  guardDefined : Bool
  groupGuards : List DeclGroup
  visible : List DeclGroup
  processed : List DeclGroup
  other : α
deriving DecidableEq, Repr

/-- A fresh compilation-unit state: no guard defined, nothing visible,
nothing processed. -/
def freshState {α : Type} (a : α) : CUState α :=
  { guardDefined := false, groupGuards := [], visible := [], processed := [],
    other := a }

/-- A resolution failure: either an include entry names a missing (or
otherwise unresolvable) declaration group, or processing a group body would
re-declare symbols already visible (a duplicate-symbol error).  The failure
carries the compilation-unit state at the point of failure, since the
preprocessor aborts without rolling back. -/
inductive ResolveErr (α : Type) where
  | missing : DeclGroup → CUState α → ResolveErr α
  | duplicateSymbol : DeclGroup → CUState α → ResolveErr α
deriving DecidableEq, Repr

/-- The compilation-unit state carried by a failure. -/
def errState {α : Type} : ResolveErr α → CUState α
  | .missing _ s => s
  | .duplicateSymbol _ s => s

/-- Modelled from the spec: resolution of one of the thirteen included C
headers, which are not part of this source snippet.  Per sections 4.1 and 6
of the specification each group is a self-contained declaration group with
its own idempotent inclusion guard.  `avail g` says whether group `g`'s
header is present and resolvable.  Resolving `g`: if its header is missing,
resolution fails; if its own guard is already defined, it is a no-op;
otherwise its body is processed, defining its guard and making its
declarations visible (a duplicate-symbol failure if they already are). -/
def resolveGroup {α : Type} (avail : DeclGroup → Bool) (g : DeclGroup)
    (s : CUState α) : Except (ResolveErr α) (CUState α) :=
  if avail g = false then .error (.missing g s)
  else if g ∈ s.groupGuards then .ok s
  else if g ∈ s.visible then .error (.duplicateSymbol g s)
  else .ok { s with groupGuards := g :: s.groupGuards,
                    visible := g :: s.visible,
                    processed := s.processed ++ [g] }

/-- Resolve a list of include entries in order, stopping at the first
failure, as the preprocessor does. -/
def resolveGroups {α : Type} (avail : DeclGroup → Bool) :
    List DeclGroup → CUState α → Except (ResolveErr α) (CUState α)
  | [], s => .ok s
  | g :: gs, s => (resolveGroup avail g s).bind (resolveGroups avail gs)

/-- Resolution of an aggregation header whose content is the include
entries `l`, guarded by the wrapper's inclusion guard: if the guard symbol
is already defined the whole header is a no-op; otherwise the guard symbol
is defined first (line 2 of the source) and the entries are resolved in
order. -/
def resolveHeaderList {α : Type} (avail : DeclGroup → Bool)
    (l : List DeclGroup) (s : CUState α) :
    Except (ResolveErr α) (CUState α) :=
  if s.guardDefined then .ok s
  else resolveGroups avail l { s with guardDefined := true }

/-- Resolution of `wrapper.h` itself: its guard around its thirteen include
entries in source order. -/
def resolveWrapper {α : Type} (avail : DeclGroup → Bool) (s : CUState α) :
    Except (ResolveErr α) (CUState α) :=
  resolveHeaderList avail includeList s

/-- Resolve `wrapper.h` `n` times in sequence within one compilation unit,
aborting at the first failure. -/
def resolveWrapperN {α : Type} (avail : DeclGroup → Bool) :
    Nat → CUState α → Except (ResolveErr α) (CUState α)
  | 0, s => .ok s
  | n + 1, s => (resolveWrapper avail s).bind (resolveWrapperN avail n)

/-- Whether a resolution outcome is a success. -/
def resolveOk {α : Type} : Except (ResolveErr α) (CUState α) → Bool
  | .ok _ => true
  | .error _ => false

/-- The state a resolution outcome leaves the compilation unit in: the
result state on success, the state at the point of failure otherwise. -/
def outcomeState {α : Type} : Except (ResolveErr α) (CUState α) → CUState α
  | .ok t => t
  | .error e => errState e

/-- Set the wrapper's guard flag of a state to `true`. -/
def setGuardTrue {α : Type} (s : CUState α) : CUState α :=
  { s with guardDefined := true }

/-- Apply a state transformation inside a resolution outcome, on the success
state and on the state carried by a failure alike. -/
def mapOutcome {α : Type} (f : CUState α → CUState α) :
    Except (ResolveErr α) (CUState α) → Except (ResolveErr α) (CUState α)
  | .ok t => .ok (f t)
  | .error (.missing g t) => .error (.missing g (f t))
  | .error (.duplicateSymbol g t) => .error (.duplicateSymbol g (f t))

/-- Well-formedness of a compilation-unit state: a group's declarations are
visible only if its own inclusion guard is defined (declarations only ever
become visible by processing the group's guarded body). -/
def Wf {α : Type} (s : CUState α) : Prop :=
  ∀ g, g ∈ s.visible → g ∈ s.groupGuards

/-- An availability map making every group resolvable. -/
def allAvail : DeclGroup → Bool := fun _ => true

/-- An availability map making exactly one group unresolvable. -/
def availWithout (g0 : DeclGroup) : DeclGroup → Bool :=
  fun g => decide (g ≠ g0)

/-- An availability map making only the first `n` entries of the include
list resolvable. -/
def availTake (n : Nat) : DeclGroup → Bool :=
  fun g => decide (g ∈ includeList.take n)

/-- A concrete compilation-unit state whose wrapper guard symbol is already
defined although no declaration group has been processed. -/
def guardPresetState : CUState Nat :=
  { guardDefined := true, groupGuards := [], visible := [], processed := [],
    other := 0 }

theorem resolveGroups_append {α : Type} (avail : DeclGroup → Bool)
    (l1 l2 : List DeclGroup) (s : CUState α) :
    resolveGroups avail (l1 ++ l2) s
      = (resolveGroups avail l1 s).bind (resolveGroups avail l2) := by
  induction l1 generalizing s with
  | nil => simp [resolveGroups, Except.bind]
  | cons g gs ih =>
    simp only [List.cons_append, resolveGroups]
    cases resolveGroup avail g s with
    | error e => simp [Except.bind]
    | ok t => simp [Except.bind, ih]

theorem resolveGroup_frame {α : Type} (avail : DeclGroup → Bool)
    (g : DeclGroup) (s : CUState α) :
    (outcomeState (resolveGroup avail g s)).guardDefined = s.guardDefined ∧
    (outcomeState (resolveGroup avail g s)).other = s.other := by
  unfold resolveGroup
  split
  · exact ⟨rfl, rfl⟩
  · split
    · exact ⟨rfl, rfl⟩
    · split
      · exact ⟨rfl, rfl⟩
      · exact ⟨rfl, rfl⟩

theorem resolveGroups_frame {α : Type} (avail : DeclGroup → Bool)
    (l : List DeclGroup) (s : CUState α) :
    (outcomeState (resolveGroups avail l s)).guardDefined = s.guardDefined ∧
    (outcomeState (resolveGroups avail l s)).other = s.other := by
  induction l generalizing s with
  | nil => exact ⟨rfl, rfl⟩
  | cons g gs ih =>
    rw [resolveGroups]
    cases h : resolveGroup avail g s with
    | error e =>
      have := resolveGroup_frame avail g s
      rw [h] at this
      simpa [Except.bind, outcomeState] using this
    | ok t =>
      have hframe := resolveGroup_frame avail g s
      rw [h] at hframe
      simp only [outcomeState] at hframe
      have := ih t
      simp only [Except.bind]
      exact ⟨this.1.trans hframe.1, this.2.trans hframe.2⟩

theorem resolveGroup_setGuard {α : Type} (avail : DeclGroup → Bool)
    (g : DeclGroup) (s : CUState α) :
    resolveGroup avail g (setGuardTrue s)
      = mapOutcome setGuardTrue (resolveGroup avail g s) := by
  unfold resolveGroup setGuardTrue mapOutcome
  by_cases h1 : avail g = false
  · simp [h1]
  · by_cases h2 : g ∈ s.groupGuards
    · simp [h1, h2]
    · by_cases h3 : g ∈ s.visible
      · simp [h1, h2, h3]
      · simp [h1, h2, h3]

theorem resolveGroups_setGuard {α : Type} (avail : DeclGroup → Bool)
    (l : List DeclGroup) (s : CUState α) :
    resolveGroups avail l (setGuardTrue s)
      = mapOutcome setGuardTrue (resolveGroups avail l s) := by
  induction l generalizing s with
  | nil => rfl
  | cons g gs ih =>
    rw [resolveGroups, resolveGroups, resolveGroup_setGuard]
    cases resolveGroup avail g s with
    | error e => cases e <;> simp [Except.bind, mapOutcome]
    | ok t => simpa [Except.bind, mapOutcome] using ih t

theorem resolveGroups_ok {α : Type} (avail : DeclGroup → Bool)
    (l : List DeclGroup) (s : CUState α)
    (hav : ∀ g ∈ l, avail g = true)
    (hg : ∀ g ∈ l, g ∉ s.groupGuards)
    (hv : ∀ g ∈ l, g ∉ s.visible)
    (hnd : l.Nodup) :
    resolveGroups avail l s
      = .ok { s with groupGuards := l.reverse ++ s.groupGuards,
                     visible := l.reverse ++ s.visible,
                     processed := s.processed ++ l } := by
  induction l generalizing s with
  | nil => simp [resolveGroups]
  | cons g gs ih =>
    have hgav : avail g = true := hav g (List.mem_cons_self g gs)
    have hgg : g ∉ s.groupGuards := hg g (List.mem_cons_self g gs)
    have hgv : g ∉ s.visible := hv g (List.mem_cons_self g gs)
    have hnds := List.nodup_cons.mp hnd
    rw [resolveGroups, resolveGroup, if_neg (by simp [hgav]), if_neg hgg,
      if_neg hgv]
    have ih' := ih { s with groupGuards := g :: s.groupGuards,
                            visible := g :: s.visible,
                            processed := s.processed ++ [g] }
      (fun x hx => hav x (List.mem_cons_of_mem g hx))
      (fun x hx => by
        simp only [List.mem_cons]
        push_neg
        exact ⟨fun hxg => hnds.1 (hxg ▸ hx), hg x (List.mem_cons_of_mem g hx)⟩)
      (fun x hx => by
        simp only [List.mem_cons]
        push_neg
        exact ⟨fun hxg => hnds.1 (hxg ▸ hx), hv x (List.mem_cons_of_mem g hx)⟩)
      hnds.2
    simp only [Except.bind, ih']
    congr 1
    simp [List.append_assoc]

theorem wf_of_resolveGroup_ok {α : Type} {avail : DeclGroup → Bool}
    {g : DeclGroup} {s t : CUState α} (hwf : Wf s)
    (h : resolveGroup avail g s = .ok t) : Wf t := by
  unfold resolveGroup at h
  split at h
  · exact absurd h (by simp)
  · split at h
    · cases h
      exact hwf
    · split at h
      · exact absurd h (by simp)
      · cases h
        intro x hx
        rcases List.mem_cons.mp hx with hx | hx
        · exact List.mem_cons.mpr (Or.inl hx)
        · exact List.mem_cons.mpr (Or.inr (hwf x hx))

theorem resolveGroups_error_missing {α : Type} {avail : DeclGroup → Bool}
    {l : List DeclGroup} {s : CUState α} (hwf : Wf s) {e : ResolveErr α}
    (he : resolveGroups avail l s = .error e) :
    ∃ g t, e = .missing g t ∧ avail g = false ∧ g ∈ l ∧
      resolveGroup avail g t = .error e := by
  induction l generalizing s with
  | nil => exact absurd he (by simp [resolveGroups])
  | cons g gs ih =>
    rw [resolveGroups] at he
    by_cases hga : avail g = false
    · rw [resolveGroup, if_pos hga] at he
      simp only [Except.bind] at he
      cases he
      exact ⟨g, s, rfl, hga, List.mem_cons_self g gs,
        by rw [resolveGroup, if_pos hga]⟩
    · rw [resolveGroup, if_neg hga] at he
      by_cases hmem : g ∈ s.groupGuards
      · rw [if_pos hmem] at he
        simp only [Except.bind] at he
        obtain ⟨g', t, h1, h2, h3, h4⟩ := ih hwf he
        exact ⟨g', t, h1, h2, List.mem_cons_of_mem g h3, h4⟩
      · rw [if_neg hmem, if_neg (fun hv => hmem (hwf g hv))] at he
        simp only [Except.bind] at he
        have hwf' : Wf ({ s with groupGuards := g :: s.groupGuards,
                                 visible := g :: s.visible,
                                 processed := s.processed ++ [g] } :
            CUState α) := by
          intro x hx
          rcases List.mem_cons.mp hx with hx | hx
          · exact List.mem_cons.mpr (Or.inl hx)
          · exact List.mem_cons.mpr (Or.inr (hwf x hx))
        obtain ⟨g', t, h1, h2, h3, h4⟩ := ih hwf' he
        exact ⟨g', t, h1, h2, List.mem_cons_of_mem g h3, h4⟩

theorem resolveGroups_ok_iff {α : Type} (avail : DeclGroup → Bool)
    (l : List DeclGroup) (s : CUState α) (hwf : Wf s) :
    resolveOk (resolveGroups avail l s) = true ↔ ∀ g ∈ l, avail g = true := by
  induction l generalizing s with
  | nil => simp [resolveGroups, resolveOk]
  | cons g gs ih =>
    rw [resolveGroups]
    by_cases hga : avail g = false
    · rw [resolveGroup, if_pos hga]
      simp only [Except.bind, resolveOk]
      constructor
      · intro h
        exact absurd h (by simp)
      · intro h
        exact absurd (h g (List.mem_cons_self g gs)) (by simp [hga])
    · have hga' : avail g = true := by
        revert hga
        cases avail g <;> simp
      rw [resolveGroup, if_neg hga]
      by_cases hmem : g ∈ s.groupGuards
      · rw [if_pos hmem]
        simp only [Except.bind]
        rw [ih s hwf]
        simp [hga']
      · rw [if_neg hmem, if_neg (fun hv => hmem (hwf g hv))]
        simp only [Except.bind]
        have hwf' : Wf ({ s with groupGuards := g :: s.groupGuards,
                                 visible := g :: s.visible,
                                 processed := s.processed ++ [g] } :
            CUState α) := by
          intro x hx
          rcases List.mem_cons.mp hx with hx | hx
          · exact List.mem_cons.mpr (Or.inl hx)
          · exact List.mem_cons.mpr (Or.inr (hwf x hx))
        rw [ih _ hwf']
        simp [hga']

theorem resolveGroups_fail_of_unavail {α : Type} {avail : DeclGroup → Bool}
    {g0 : DeclGroup} {l : List DeclGroup} {s : CUState α} (hwf : Wf s)
    (hmem : g0 ∈ l) (h0 : avail g0 = false)
    (h1 : ∀ g ∈ l, g ≠ g0 → avail g = true) :
    ∃ t, resolveGroups avail l s = .error (.missing g0 t) := by
  induction l generalizing s with
  | nil => exact absurd hmem (List.not_mem_nil g0)
  | cons g gs ih =>
    rw [resolveGroups]
    by_cases hgg0 : g = g0
    · subst hgg0
      rw [resolveGroup, if_pos h0]
      exact ⟨s, by simp [Except.bind]⟩
    · have hga : avail g = true := h1 g (List.mem_cons_self g gs) hgg0
      have hmem' : g0 ∈ gs := by
        rcases List.mem_cons.mp hmem with h | h
        · exact absurd h.symm hgg0
        · exact h
      have h1' : ∀ x ∈ gs, x ≠ g0 → avail x = true :=
        fun x hx => h1 x (List.mem_cons_of_mem g hx)
      rw [resolveGroup, if_neg (by simp [hga])]
      by_cases hmemg : g ∈ s.groupGuards
      · rw [if_pos hmemg]
        simp only [Except.bind]
        exact ih hwf hmem' h1'
      · rw [if_neg hmemg, if_neg (fun hv => hmemg (hwf g hv))]
        simp only [Except.bind]
        have hwf' : Wf ({ s with groupGuards := g :: s.groupGuards,
                                 visible := g :: s.visible,
                                 processed := s.processed ++ [g] } :
            CUState α) := by
          intro x hx
          rcases List.mem_cons.mp hx with hx | hx
          · exact List.mem_cons.mpr (Or.inl hx)
          · exact List.mem_cons.mpr (Or.inr (hwf x hx))
        exact ih hwf' hmem' h1'

theorem wf_freshGuarded {α : Type} (a : α) :
    Wf ({ freshState a with guardDefined := true } : CUState α) := by
  intro g hg
  exact absurd hg (by simp [freshState])

theorem resolveWrapper_noop_of_guard {α : Type} (avail : DeclGroup → Bool)
    (s : CUState α) (h : s.guardDefined = true) :
    resolveWrapper avail s = .ok s := by
  rw [resolveWrapper, resolveHeaderList, if_pos h]

theorem resolveWrapper_outcome_guard {α : Type} (avail : DeclGroup → Bool)
    (s : CUState α) :
    (outcomeState (resolveWrapper avail s)).guardDefined = true := by
  rw [resolveWrapper, resolveHeaderList]
  by_cases h : s.guardDefined
  · rw [if_pos h, outcomeState, h]
  · rw [if_neg h]
    exact (resolveGroups_frame avail includeList _).1

theorem resolveWrapper_ok_idem {α : Type} {avail : DeclGroup → Bool}
    {s t : CUState α} (h : resolveWrapper avail s = .ok t) :
    resolveWrapper avail t = .ok t := by
  have hg := resolveWrapper_outcome_guard avail s
  rw [h, outcomeState] at hg
  exact resolveWrapper_noop_of_guard avail t hg

theorem resolveWrapperN_succ_eq {α : Type} (avail : DeclGroup → Bool) :
    ∀ (n : Nat) (s : CUState α),
      resolveWrapperN avail (n + 1) s = resolveWrapper avail s := by
  intro n
  induction n with
  | zero =>
    intro s
    rw [resolveWrapperN]
    cases h : resolveWrapper avail s with
    | error e => simp [Except.bind]
    | ok t => simp [Except.bind, resolveWrapperN]
  | succ m ih =>
    intro s
    rw [resolveWrapperN]
    cases h : resolveWrapper avail s with
    | error e => simp [Except.bind]
    | ok t =>
      simp only [Except.bind]
      rw [ih t, resolveWrapper_ok_idem h]

theorem resolveOk_false_iff {α : Type} (x : Except (ResolveErr α) (CUState α)) :
    resolveOk x = false ↔ ¬ (resolveOk x = true) := by
  cases x <;> simp [resolveOk]

/-- C2: for every availability of the included headers, every initial
compilation-unit state and every N ≥ 1, resolving `wrapper.h` N times within
one compilation unit yields the same outcome as resolving it exactly once;
in particular, once its guard symbol is defined, re-processing the header is
a no-op. -/
theorem wrapper_idempotent {α : Type} (avail : DeclGroup → Bool)
    (s : CUState α) (n : Nat) (hn : 1 ≤ n) :
    resolveWrapperN avail n s = resolveWrapper avail s ∧
    (s.guardDefined = true → resolveWrapper avail s = .ok s) := by
  constructor
  · obtain ⟨m, rfl⟩ : ∃ m, n = m + 1 := ⟨n - 1, by omega⟩
    exact resolveWrapperN_succ_eq avail m s
  · exact resolveWrapper_noop_of_guard avail s

/-- Witness for C2: three resolutions of the header from a fresh state
coincide with a single resolution. -/
theorem wrapper_idempotent_witness :
    resolveWrapperN allAvail 3 (freshState (0 : Nat))
      = resolveWrapper allAvail (freshState (0 : Nat)) :=
  (wrapper_idempotent allAvail (freshState (0 : Nat)) 3 (by decide)).1

/-- C7: resolving `wrapper.h` changes nothing in the compilation-unit state
beyond the visibility and inclusion-guard components: the abstract `other`
component — standing for resources, I/O and every runtime effect — is
unchanged on success and also in the state a failure aborts in. -/
theorem wrapper_frame {α : Type} (avail : DeclGroup → Bool) (s : CUState α) :
    (outcomeState (resolveWrapper avail s)).other = s.other := by
  rw [resolveWrapper, resolveHeaderList]
  by_cases h : s.guardDefined
  · rw [if_pos h, outcomeState]
  · rw [if_neg h]
    exact (resolveGroups_frame avail includeList _).2

/-- C8: `wrapper.h` consists of exactly fourteen entries — its inclusion
guard followed by thirteen include entries — in the fixed source order, and
that order of declaration groups matches the manifest of section 6 of the
specification. -/
theorem wrapper_entries_manifest :
    wrapperEntries.length = 14 ∧
    wrapperEntries
      = HeaderEntry.guardEntry guardSymbol
          :: includeList.map HeaderEntry.includeEntry ∧
    includeList.length = 13 ∧
    includeList = specManifest ∧
    includeList.Nodup :=
  ⟨rfl, rfl, rfl, rfl, by decide⟩

/-- C9: the guard symbol `THIRD_PARTY_ODML_LITERT_LITERT_RUST_WRAPPER_H_`
names none of the thirteen included declaration groups, and after every
resolution of `wrapper.h` — from any state, under any availability, on
success and on failure alike — the guard symbol is defined; in particular,
once defined it remains defined under every further resolution. -/
theorem wrapper_guard_invariant {α : Type} (avail : DeclGroup → Bool)
    (s : CUState α) :
    guardSymbol ∉ includeList.map includePath ∧
    (outcomeState (resolveWrapper avail s)).guardDefined = true :=
  ⟨by decide, resolveWrapper_outcome_guard avail s⟩

/-- C1 (amended): for every compilation-unit state in which none of the
thirteen declaration groups has been processed and the wrapper's guard
symbol is not yet defined, resolving `wrapper.h` is equivalent — up to the
wrapper's own guard flag — to resolving the thirteen listed declaration
groups directly; the include list names each group exactly once, and when
every group is resolvable the resolution succeeds and processes each
group's body exactly once, with no duplicate-symbol error. -/
theorem wrapper_equiv_each_group_once {α : Type} (avail : DeclGroup → Bool)
    (s : CUState α)
    (hguard : s.guardDefined = false)
    (hg : ∀ g : DeclGroup, g ∉ s.groupGuards)
    (hv : ∀ g : DeclGroup, g ∉ s.visible)
    (hp : s.processed = []) :
    resolveWrapper avail s
        = mapOutcome setGuardTrue (resolveGroups avail includeList s) ∧
    (∀ g : DeclGroup, includeList.count g = 1) ∧
    ((∀ g, avail g = true) →
      ∃ t, resolveWrapper avail s = .ok t ∧ t.processed = includeList ∧
        t.processed.Nodup) := by
  have hsg : ({ s with guardDefined := true } : CUState α) = setGuardTrue s :=
    rfl
  refine ⟨?_, by decide, ?_⟩
  · rw [resolveWrapper, resolveHeaderList, if_neg (by simp [hguard]), hsg,
      resolveGroups_setGuard]
  · intro hav
    have hok := resolveGroups_ok avail includeList s (fun g _ => hav g)
      (fun g _ => hg g) (fun g _ => hv g) (by decide)
    refine ⟨setGuardTrue
      { s with groupGuards := includeList.reverse ++ s.groupGuards,
               visible := includeList.reverse ++ s.visible,
               processed := s.processed ++ includeList }, ?_, ?_, ?_⟩
    · rw [resolveWrapper, resolveHeaderList, if_neg (by simp [hguard]), hsg,
        resolveGroups_setGuard, hok]
      rfl
    · show s.processed ++ includeList = includeList
      rw [hp, List.nil_append]
    · show (s.processed ++ includeList).Nodup
      rw [hp, List.nil_append]
      decide

/-- Witness for C1: the amended statement applied at a fresh state with all
groups resolvable. -/
theorem wrapper_equiv_each_group_once_witness :
    resolveWrapper allAvail (freshState (0 : Nat))
        = mapOutcome setGuardTrue
            (resolveGroups allAvail includeList (freshState (0 : Nat))) ∧
    (∀ g : DeclGroup, includeList.count g = 1) ∧
    ((∀ g, allAvail g = true) →
      ∃ t, resolveWrapper allAvail (freshState (0 : Nat)) = .ok t ∧
        t.processed = includeList ∧ t.processed.Nodup) :=
  wrapper_equiv_each_group_once allAvail (freshState (0 : Nat)) (by decide)
    (by decide) (by decide) (by decide)

/-- C1 counterexample: a compilation-unit state in which none of the
thirteen declaration groups has been processed but the wrapper's guard
symbol is already defined.  There, resolving the header is a no-op that
makes nothing visible, which is not equivalent to resolving the thirteen
declaration groups once each. -/
theorem wrapper_not_equiv_when_guard_preset :
    (∀ g : DeclGroup, g ∉ guardPresetState.groupGuards) ∧
    (∀ g : DeclGroup, g ∉ guardPresetState.visible) ∧
    guardPresetState.processed = [] ∧
    resolveWrapper allAvail guardPresetState = .ok guardPresetState ∧
    (outcomeState (resolveWrapper allAvail guardPresetState)).visible
      ≠ (outcomeState
          (resolveGroups allAvail includeList guardPresetState)).visible := by
  refine ⟨by decide, by decide, rfl, rfl, by decide⟩

/-- C3: resolving `wrapper.h` from a fresh compilation-unit state, with all
groups resolvable, succeeds and makes visible exactly the declaration
groups of the include list: all thirteen, and nothing else. -/
theorem wrapper_visible_exactly {α : Type} (a : α) (avail : DeclGroup → Bool)
    (hav : ∀ g, avail g = true) :
    ∃ t, resolveWrapper avail (freshState a) = .ok t ∧
      (∀ g : DeclGroup, g ∈ t.visible ↔ g ∈ includeList) := by
  have hok := resolveGroups_ok avail includeList
    ({ freshState a with guardDefined := true }) (fun g _ => hav g)
    (fun g _ => by simp [freshState]) (fun g _ => by simp [freshState])
    (by decide)
  rw [resolveWrapper, resolveHeaderList, if_neg (by simp [freshState])]
  refine ⟨_, hok, ?_⟩
  intro g
  simp [freshState]

/-- Witness for C3: the statement applied at a fresh state over `Nat` with
all groups resolvable. -/
theorem wrapper_visible_exactly_witness :
    ∃ t, resolveWrapper allAvail (freshState (0 : Nat)) = .ok t ∧
      (∀ g : DeclGroup, g ∈ t.visible ↔ g ∈ includeList) :=
  wrapper_visible_exactly 0 allAvail (fun _ => rfl)

/-- C4: resolving `wrapper.h` from a fresh state fails exactly when some
group of its include list is unresolvable, and the failure it surfaces is
the very failure that resolving the failing group directly at the point of
failure produces — unmasked, unwrapped and unaltered. -/
theorem wrapper_fail_iff {α : Type} (a : α) (avail : DeclGroup → Bool) :
    (resolveOk (resolveWrapper avail (freshState a)) = false
        ↔ ∃ g ∈ includeList, avail g = false) ∧
    (∀ e, resolveWrapper avail (freshState a) = .error e →
      ∃ g t, e = .missing g t ∧ avail g = false ∧ g ∈ includeList ∧
        resolveGroup avail g t = .error e) := by
  have hwf := wf_freshGuarded (α := α) a
  constructor
  · rw [resolveWrapper, resolveHeaderList, if_neg (by simp [freshState]),
      resolveOk_false_iff,
      resolveGroups_ok_iff avail includeList _ hwf]
    constructor
    · intro h
      by_contra hc
      push_neg at hc
      refine h (fun g hgmem => ?_)
      have h2 := hc g hgmem
      revert h2
      cases avail g <;> simp
    · rintro ⟨g, hgmem, hgf⟩ hall
      rw [hall g hgmem] at hgf
      exact Bool.noConfusion hgf
  · intro e he
    rw [resolveWrapper, resolveHeaderList,
      if_neg (by simp [freshState])] at he
    exact resolveGroups_error_missing hwf he

/-- Witness for C4: with the event group unresolvable, resolution of the
header from a fresh state fails. -/
theorem wrapper_fail_iff_witness :
    resolveOk (resolveWrapper (availWithout .event) (freshState (0 : Nat)))
      = false :=
  (wrapper_fail_iff 0 (availWithout .event)).1.mpr
    ⟨.event, by decide, by decide⟩

/-- C5: if exactly one of the thirteen declaration groups is unresolvable
while the other twelve remain resolvable, resolving `wrapper.h` from a
fresh state fails with a missing-group failure naming that very group. -/
theorem wrapper_fail_identifies_group {α : Type} (a : α) (g0 : DeclGroup)
    (avail : DeclGroup → Bool) (h0 : avail g0 = false)
    (h1 : ∀ g, g ≠ g0 → avail g = true) :
    ∃ t, resolveWrapper avail (freshState a) = .error (.missing g0 t) := by
  have hwf := wf_freshGuarded (α := α) a
  have hmem : g0 ∈ includeList := by
    have hall : ∀ g : DeclGroup, g ∈ includeList := by decide
    exact hall g0
  rw [resolveWrapper, resolveHeaderList, if_neg (by simp [freshState])]
  exact resolveGroups_fail_of_unavail hwf hmem h0 (fun g _ => h1 g)

/-- Witness for C5: removing the metrics group makes resolution fail with a
failure naming the metrics group. -/
theorem wrapper_fail_identifies_group_witness :
    ∃ t, resolveWrapper (availWithout .metrics) (freshState (0 : Nat))
        = .error (.missing .metrics t) :=
  wrapper_fail_identifies_group 0 .metrics (availWithout .metrics)
    (by decide) (fun g h => by simp [availWithout, h])

/-- C6: for every permutation of the thirteen include entries, resolving
the permuted header from a fresh state succeeds exactly when resolving the
original header does: the relative order of the entries does not affect
whether resolution succeeds. -/
theorem wrapper_order_independence {α : Type} (a : α)
    (avail : DeclGroup → Bool) (l : List DeclGroup)
    (hperm : l.Perm includeList) :
    resolveOk (resolveHeaderList avail l (freshState a))
      = resolveOk (resolveWrapper avail (freshState a)) := by
  have hwf := wf_freshGuarded (α := α) a
  have hc : ¬ ((freshState a).guardDefined = true) := by simp [freshState]
  rw [resolveWrapper, resolveHeaderList, resolveHeaderList, if_neg hc,
    if_neg hc]
  have h1 := resolveGroups_ok_iff avail l
    ({ freshState a with guardDefined := true }) hwf
  have h2 := resolveGroups_ok_iff avail includeList
    ({ freshState a with guardDefined := true }) hwf
  have hiff : (∀ g ∈ l, avail g = true)
      ↔ ∀ g ∈ includeList, avail g = true := by
    constructor <;> intro h g hgmem
    · exact h g (hperm.mem_iff.mpr hgmem)
    · exact h g (hperm.mem_iff.mp hgmem)
  exact Bool.eq_iff_iff.mpr (h1.trans (hiff.trans h2.symm))

/-- Witness for C6: the reversed include list resolves exactly as
successfully as the original one. -/
theorem wrapper_order_independence_witness :
    resolveOk
        (resolveHeaderList allAvail includeList.reverse (freshState (0 : Nat)))
      = resolveOk (resolveWrapper allAvail (freshState (0 : Nat))) :=
  wrapper_order_independence 0 allAvail includeList.reverse
    (List.reverse_perm includeList)

/-- C10: if, on a first resolution of `wrapper.h` from a fresh state, the
entry at position k of the include list is the first to fail, the
compilation-unit state at the point of failure already has the wrapper's
guard symbol defined and exactly the first k declaration groups visible;
the state is not rolled back to its value before resolution began. -/
theorem wrapper_partial_on_failure {α : Type} (a : α)
    (avail : DeclGroup → Bool) (k : Nat) (hk : k < includeList.length)
    (h1 : ∀ g ∈ includeList.take k, avail g = true)
    (h0 : avail includeList[k] = false) :
    ∃ t, resolveWrapper avail (freshState a)
        = .error (.missing includeList[k] t) ∧
      t.guardDefined = true ∧
      (∀ g : DeclGroup, g ∈ t.visible ↔ g ∈ includeList.take k) ∧
      t ≠ freshState a := by
  have hc : ¬ ((freshState a).guardDefined = true) := by simp [freshState]
  have hok := resolveGroups_ok avail (includeList.take k)
    ({ freshState a with guardDefined := true } : CUState α)
    h1 (fun g _ => by simp [freshState]) (fun g _ => by simp [freshState])
    ((show includeList.Nodup by decide).sublist
      (List.take_sublist k includeList))
  have hres : resolveGroups avail includeList
      ({ freshState a with guardDefined := true } : CUState α)
      = resolveGroups avail
          (includeList.take k
            ++ includeList[k] :: includeList.drop (k + 1))
          ({ freshState a with guardDefined := true } : CUState α) := by
    rw [← List.drop_eq_getElem_cons hk, List.take_append_drop]
  refine ⟨{ guardDefined := true,
            groupGuards := (includeList.take k).reverse ++ [],
            visible := (includeList.take k).reverse ++ [],
            processed := [] ++ includeList.take k,
            other := a }, ?_, rfl, ?_, ?_⟩
  · rw [resolveWrapper, resolveHeaderList, if_neg hc, hres,
      resolveGroups_append, hok]
    simp only [Except.bind]
    rw [resolveGroups, resolveGroup, if_pos h0]
    rfl
  · intro g
    simp
  · intro heq
    have := congrArg CUState.guardDefined heq
    simp [freshState] at this

/-- Witness for C10: with only the first four groups resolvable, resolution
fails at the fifth entry (environment options), leaving the guard symbol
defined and exactly the first four groups visible. -/
theorem wrapper_partial_on_failure_witness :
    ∃ t, resolveWrapper (availTake 4) (freshState (0 : Nat))
        = .error (.missing (includeList.get ⟨4, by decide⟩) t) ∧
      t.guardDefined = true ∧
      (∀ g : DeclGroup, g ∈ t.visible ↔ g ∈ includeList.take 4) ∧
      t ≠ freshState 0 :=
  wrapper_partial_on_failure 0 (availTake 4) 4 (by decide) (by decide)
    (by decide)

end LiteRTWrapper
